import Mathlib

set_option maxHeartbeats 1000000
set_option maxRecDepth 4000

/-! Verification of the job-queue / background-worker subsystem of `master.py`.

The embedding models:
* Python strings as lists of Unicode code points (`PyStr`);
* the JSON payload/result values handled by `json.dumps` / `json.loads`
  (`JVal`, `printValue`, `json_loads`), with integer numerics (the repository
  only ever serializes dicts of strings/ints/bools/lists/dicts);
* the SQLite `jobs` table as a list of rows in insertion (rowid) order;
* the queue operations `enqueue_job`, `get_job`, `update_job_status`
  and one iteration of `_demo_worker_loop`.

Timestamps (`datetime.utcnow().isoformat()`) are modelled as naturals:
ISO-8601 strings produced by a monotone clock compare lexicographically
exactly as the underlying instants compare, so the `ORDER BY created_at`
in the worker's SELECT is order-isomorphic to the Nat order used here.
Job identifiers (`uuid.uuid4()`) are modelled as naturals supplied by the
caller; uniqueness of a freshly drawn uuid is expressed as the hypothesis
that the id is not yet present in the store. -/

/-- Python strings, modelled as lists of Unicode code points. -/
abbrev PyStr := List Nat

/-- Embed a Lean string literal into the code-point model. -/
def strLit (s : String) : PyStr := s.data.map Char.toNat

/-! ## JSON values

`JVal` models the values the repository passes through `json.dumps` and
`json.loads`: `None`, booleans, integers, strings, lists and string-keyed
dicts (in insertion order, as Python preserves it). -/

mutual
/-- A JSON-serializable Python value (integer numerics). -/
inductive JVal where
  | jnull : JVal
  | jbool : Bool → JVal
  | jnum : Int → JVal
  | jstr : PyStr → JVal
  | jarr : JList → JVal
  | jobj : JMembers → JVal

/-- A list of JSON values (elements of a Python list). -/
inductive JList where
  | nil : JList
  | cons : JVal → JList → JList

/-- The key/value members of a Python dict, in insertion order. -/
inductive JMembers where
  | nil : JMembers
  | cons : PyStr → JVal → JMembers → JMembers
end

/-- A code point of a well-formed Python text value: a Unicode scalar value
(below 0x110000 and outside the surrogate block). -/
def wfChar (c : Nat) : Bool := decide (c < 1114112) && (decide (c < 55296) || decide (57344 ≤ c))

mutual
/-- Well-formedness of a JSON value: every string consists of Unicode
scalar values. -/
def jwfB : JVal → Bool
  | .jnull => true
  | .jbool _ => true
  | .jnum _ => true
  | .jstr s => s.all wfChar
  | .jarr xs => lwfB xs
  | .jobj kvs => mwfB kvs
termination_by structural v => v

/-- Well-formedness of a list of JSON values. -/
def lwfB : JList → Bool
  | .nil => true
  | .cons x xs => jwfB x && lwfB xs
termination_by structural xs => xs

/-- Well-formedness of dict members. -/
def mwfB : JMembers → Bool
  | .nil => true
  | .cons k v kvs => k.all wfChar && jwfB v && mwfB kvs
termination_by structural kvs => kvs
end

/-- Python truthiness of a `JVal` (`bool(x)`): `None`, `False`, `0`, empty
strings, empty lists and empty dicts are falsy; everything else is truthy. -/
def truthy : JVal → Bool
  | .jnull => false
  | .jbool b => b
  | .jnum n => n != 0
  | .jstr s => !s.isEmpty
  | .jarr .nil => false
  | .jarr (.cons _ _) => true
  | .jobj .nil => false
  | .jobj (.cons _ _ _) => true

/-! ## `json.dumps` (default options: ensure_ascii=True, separators ", " and ": ") -/

/-- Lower-case hex digit for a value below 16. -/
def hexDig (d : Nat) : Nat := if d < 10 then 48 + d else 87 + d

/-- Four lower-case hex digits of a value below 0x10000. -/
def hex4 (n : Nat) : PyStr :=
  [hexDig (n / 4096 % 16), hexDig (n / 256 % 16), hexDig (n / 16 % 16), hexDig (n % 16)]

/-- The escape `json.dumps` (ensure_ascii=True) applies to one code point:
backslash escapes for quote, backslash and the standard control shorthands,
`\uXXXX` for other non-printable or non-ASCII points, with a surrogate pair
for points above 0xFFFF. -/
def escapeChar (c : Nat) : PyStr :=
  if c = 34 then [92, 34]
  else if c = 92 then [92, 92]
  else if c = 8 then [92, 98]
  else if c = 9 then [92, 116]
  else if c = 10 then [92, 110]
  else if c = 12 then [92, 102]
  else if c = 13 then [92, 114]
  else if 32 ≤ c ∧ c ≤ 126 then [c]
  else if c < 65536 then 92 :: 117 :: hex4 c
  else (92 :: 117 :: hex4 (55296 + (c - 65536) / 1024)) ++ (92 :: 117 :: hex4 (56320 + (c - 65536) % 1024))

/-- Escape every code point of a string body. -/
def escapeString : PyStr → PyStr
  | [] => []
  | c :: r => escapeChar c ++ escapeString r

/-- Fuel-indexed digit accumulator: peels decimal digits from the right. -/
def natDigitsAux : Nat → Nat → PyStr → PyStr
  | 0, _, acc => acc
  | f + 1, n, acc =>
    if n < 10 then (48 + n) :: acc else natDigitsAux f (n / 10) ((48 + n % 10) :: acc)

/-- Decimal digits of a natural number, most significant first. -/
def natDigits (n : Nat) : PyStr := natDigitsAux (n + 1) n []

/-- Decimal rendering of a Python int, as `json.dumps` emits it. -/
def printInt (n : Int) : PyStr :=
  if n < 0 then 45 :: natDigits n.natAbs else natDigits n.toNat

mutual
/-- The text `json.dumps` produces for a value (default separators). -/
def printValue : JVal → PyStr
  | .jnull => [110, 117, 108, 108]
  | .jbool true => [116, 114, 117, 101]
  | .jbool false => [102, 97, 108, 115, 101]
  | .jnum n => printInt n
  | .jstr s => 34 :: (escapeString s ++ [34])
  | .jarr .nil => [91, 93]
  | .jarr (.cons x xs) => 91 :: (printValue x ++ (printItemsTail xs ++ [93]))
  | .jobj .nil => [123, 125]
  | .jobj (.cons k v kvs) =>
    123 :: ((34 :: (escapeString k ++ (34 :: 58 :: 32 :: printValue v))) ++
      (printMembersTail kvs ++ [125]))
termination_by structural v => v

/-- The `, `-separated rendering of the remaining list elements. -/
def printItemsTail : JList → PyStr
  | .nil => []
  | .cons x xs => 44 :: 32 :: (printValue x ++ printItemsTail xs)
termination_by structural xs => xs

/-- The `, `-separated rendering of the remaining dict members. -/
def printMembersTail : JMembers → PyStr
  | .nil => []
  | .cons k v kvs =>
    44 :: 32 :: ((34 :: (escapeString k ++ (34 :: 58 :: 32 :: printValue v))) ++
      printMembersTail kvs)
termination_by structural kvs => kvs
end

/-- One rendered dict member: `"key": value`. -/
def printMember (k : PyStr) (v : JVal) : PyStr :=
  34 :: (escapeString k ++ (34 :: 58 :: 32 :: printValue v))

/-! ## `json.loads` (recursive-descent scanner, fuel-indexed) -/

/-- Drop leading JSON whitespace. -/
def skipWs : PyStr → PyStr
  | [] => []
  | c :: r => if c = 32 ∨ c = 9 ∨ c = 10 ∨ c = 13 then skipWs r else c :: r

/-- Is the code point a hex digit (as Python's scanner accepts)? -/
def isHexDigit (c : Nat) : Bool :=
  (decide (48 ≤ c) && decide (c ≤ 57)) || (decide (97 ≤ c) && decide (c ≤ 102)) ||
    (decide (65 ≤ c) && decide (c ≤ 70))

/-- Numeric value of a hex digit code point. -/
def hexValT (c : Nat) : Nat :=
  if c ≤ 57 then c - 48 else if 97 ≤ c then c - 87 else c - 55

/-- Is the code point an ASCII decimal digit? -/
def isDigitCp (c : Nat) : Bool := decide (48 ≤ c) && decide (c ≤ 57)

/-- Scan a JSON string body after the opening quote, un-escaping as Python's
`py_scanstring` does (including joining `\uXXXX` surrogate pairs); returns
the decoded body and the input following the closing quote. -/
def parseStringBody : Nat → PyStr → Option (PyStr × PyStr)
  | 0, _ => none
  | _ + 1, [] => none
  | f + 1, c :: r =>
    if c = 34 then some ([], r)
    else if c = 92 then
      match r with
      | [] => none
      | e :: r2 =>
        if e = 34 then (parseStringBody f r2).map (fun p => (34 :: p.1, p.2))
        else if e = 92 then (parseStringBody f r2).map (fun p => (92 :: p.1, p.2))
        else if e = 47 then (parseStringBody f r2).map (fun p => (47 :: p.1, p.2))
        else if e = 98 then (parseStringBody f r2).map (fun p => (8 :: p.1, p.2))
        else if e = 102 then (parseStringBody f r2).map (fun p => (12 :: p.1, p.2))
        else if e = 110 then (parseStringBody f r2).map (fun p => (10 :: p.1, p.2))
        else if e = 114 then (parseStringBody f r2).map (fun p => (13 :: p.1, p.2))
        else if e = 116 then (parseStringBody f r2).map (fun p => (9 :: p.1, p.2))
        else if e = 117 then
          match r2 with
          | h1 :: h2 :: h3 :: h4 :: r3 =>
            if isHexDigit h1 && isHexDigit h2 && isHexDigit h3 && isHexDigit h4 then
              let n := hexValT h1 * 4096 + hexValT h2 * 256 + hexValT h3 * 16 + hexValT h4
              if 55296 ≤ n ∧ n < 56320 then
                match r3 with
                | 92 :: 117 :: g1 :: g2 :: g3 :: g4 :: r4 =>
                  if isHexDigit g1 && isHexDigit g2 && isHexDigit g3 && isHexDigit g4 then
                    let m := hexValT g1 * 4096 + hexValT g2 * 256 + hexValT g3 * 16 + hexValT g4
                    if 56320 ≤ m ∧ m < 57344 then
                      (parseStringBody f r4).map
                        (fun p => ((65536 + (n - 55296) * 1024 + (m - 56320)) :: p.1, p.2))
                    else (parseStringBody f r3).map (fun p => (n :: p.1, p.2))
                  else (parseStringBody f r3).map (fun p => (n :: p.1, p.2))
                | _ => (parseStringBody f r3).map (fun p => (n :: p.1, p.2))
              else (parseStringBody f r3).map (fun p => (n :: p.1, p.2))
            else none
          | _ => none
        else none
    else (parseStringBody f r).map (fun p => (c :: p.1, p.2))

/-- Accumulate a run of decimal digits. -/
def parseDigitsAux : PyStr → Nat → Nat × PyStr
  | [], acc => (acc, [])
  | c :: r, acc => if isDigitCp c then parseDigitsAux r (acc * 10 + (c - 48)) else (acc, c :: r)

/-- Scan an unsigned decimal integer (at least one digit). -/
def parseDigits : PyStr → Option (Nat × PyStr)
  | [] => none
  | c :: r => if isDigitCp c then some (parseDigitsAux (c :: r) 0) else none

mutual
/-- Scan one JSON value (integer numerics); fuel bounds the recursion depth
and one unit is spent per nested value or separator step. -/
def parseValue : Nat → PyStr → Option (JVal × PyStr)
  | 0, _ => none
  | f + 1, s =>
    match skipWs s with
    | [] => none
    | c :: r =>
      if c = 110 then
        match r with
        | 117 :: 108 :: 108 :: r2 => some (.jnull, r2)
        | _ => none
      else if c = 116 then
        match r with
        | 114 :: 117 :: 101 :: r2 => some (.jbool true, r2)
        | _ => none
      else if c = 102 then
        match r with
        | 97 :: 108 :: 115 :: 101 :: r2 => some (.jbool false, r2)
        | _ => none
      else if c = 34 then
        match parseStringBody (r.length + 1) r with
        | some (cs, r2) => some (.jstr cs, r2)
        | none => none
      else if c = 91 then
        match skipWs r with
        | [] => none
        | c2 :: r2 =>
          if c2 = 93 then some (.jarr .nil, r2)
          else
            match parseValue f (c2 :: r2) with
            | some (x, r3) =>
              match parseItems f r3 with
              | some (xs, r4) => some (.jarr (.cons x xs), r4)
              | none => none
            | none => none
      else if c = 123 then
        match skipWs r with
        | [] => none
        | c2 :: r2 =>
          if c2 = 125 then some (.jobj .nil, r2)
          else if c2 = 34 then
            match parseStringBody (r2.length + 1) r2 with
            | some (k, r3) =>
              match skipWs r3 with
              | 58 :: r4 =>
                match parseValue f r4 with
                | some (v, r5) =>
                  match parseMembers f r5 with
                  | some (kvs, r6) => some (.jobj (.cons k v kvs), r6)
                  | none => none
                | none => none
              | _ => none
            | none => none
          else none
      else if c = 45 then
        match parseDigits r with
        | some (n, r2) => some (.jnum (-(n : Int)), r2)
        | none => none
      else if isDigitCp c then
        match parseDigits (c :: r) with
        | some (n, r2) => some (.jnum (n : Int), r2)
        | none => none
      else none

/-- After one array element: scan `, value` repetitions up to `]`. -/
def parseItems : Nat → PyStr → Option (JList × PyStr)
  | 0, _ => none
  | f + 1, s =>
    match skipWs s with
    | [] => none
    | c :: r =>
      if c = 93 then some (.nil, r)
      else if c = 44 then
        match parseValue f r with
        | some (x, r1) =>
          match parseItems f r1 with
          | some (xs, r2) => some (.cons x xs, r2)
          | none => none
        | none => none
      else none

/-- After one dict member: scan `, "key": value` repetitions up to `}`. -/
def parseMembers : Nat → PyStr → Option (JMembers × PyStr)
  | 0, _ => none
  | f + 1, s =>
    match skipWs s with
    | [] => none
    | c :: r =>
      if c = 125 then some (.nil, r)
      else if c = 44 then
        match skipWs r with
        | c2 :: r2 =>
          if c2 = 34 then
            match parseStringBody (r2.length + 1) r2 with
            | some (k, r3) =>
              match skipWs r3 with
              | 58 :: r4 =>
                match parseValue f r4 with
                | some (v, r5) =>
                  match parseMembers f r5 with
                  | some (kvs, r6) => some (.cons k v kvs, r6)
                  | none => none
                | none => none
              | _ => none
            | none => none
          else none
        | [] => none
      else none
end

/-- `json.loads`: scan one value and require only whitespace to follow;
on malformed input it raises `JSONDecodeError`, modelled as `Except.error`
with an abbreviated message. -/
def json_loads (s : PyStr) : Except PyStr JVal :=
  match parseValue (s.length + 1) s with
  | some (v, rest) =>
    if (skipWs rest).isEmpty then Except.ok v else Except.error (strLit "Extra data")
  | none => Except.error (strLit "Expecting value")

/-! ## The `jobs` table and the queue operations of `master.py`

The SQLite table is modelled as a list of rows in insertion (rowid) order.
Statuses carry the literal strings of the source: rows are inserted with
status `"queued"` (the state the specification names `pending`), and move
to `"running"`, `"done"` or `"failed"`. -/

/-- One row of the `jobs` table. -/
structure Job where
  id : Nat
  project_id : Nat
  task_key : String
  status : String
  payload : Option PyStr
  result : Option PyStr
  created_at : Nat
  updated_at : Nat
deriving DecidableEq

/-- `get_job`: `SELECT * FROM jobs WHERE id = ?`, first matching row. -/
def get_job (store : List Job) (job_id : Nat) : Option Job :=
  store.find? (fun j => j.id == job_id)

/-- `enqueue_job`: inserts a new row with status `"queued"`, the payload
serialized by `json.dumps`, `created_at = updated_at = now`, a NULL result,
and returns the handle dict `{"id": job_id, "status": "queued"}`.  The
freshly drawn `uuid.uuid4()` and `utcnow()` are passed as `job_id`/`now`. -/
def enqueue_job (store : List Job) (job_id now project_id : Nat) (task_key : String)
    (payload : JVal) : List Job × (Nat × String) :=
  (store ++ [{ id := job_id, project_id := project_id, task_key := task_key,
               status := "queued", payload := some (printValue payload), result := none,
               created_at := now, updated_at := now }],
   (job_id, "queued"))

/-- The stored `result` column value: the source writes
`json.dumps(result) if result else None`, so a falsy Python value (`None`,
`{}`, `0`, `""`, ...) is stored as NULL. -/
def storedResult : Option JVal → Option PyStr
  | some v => if truthy v then some (printValue v) else none
  | none => none

/-- `update_job_status`: `UPDATE jobs SET status = ?, updated_at = ?,
result = ? WHERE id = ?`; rows whose id does not match are untouched, and
an id that matches no row leaves the table unchanged (SQLite UPDATE raises
nothing).  `now` is the `utcnow()` taken inside the call. -/
def update_job_status (store : List Job) (now job_id : Nat) (status : String)
    (result : Option JVal) : List Job :=
  store.map fun j =>
    if j.id = job_id then
      { j with status := status, updated_at := now, result := storedResult result }
    else j

/-- Keep the row with strictly older `created_at`; on a tie keep the first
argument (the row encountered earlier in table order). -/
def pickOlder (a b : Job) : Job := if b.created_at < a.created_at then b else a

/-- `SELECT * FROM jobs WHERE status = 'queued' ORDER BY created_at LIMIT 1`:
the query has no secondary sort key, so among rows with equal `created_at`
the row scanned first in rowid (insertion) order is returned. -/
def selectOldestQueued (store : List Job) : Option Job :=
  match store.filter (fun j => j.status == "queued") with
  | [] => none
  | j :: js => some (js.foldl pickOlder j)

/-- `json.loads(job["payload"]) if job["payload"] else {}`: a NULL or empty
stored payload yields the empty dict, otherwise the stored text is parsed. -/
def loadPayload : Option PyStr → Except PyStr JVal
  | none => Except.ok (.jobj .nil)
  | some s => if s.isEmpty then Except.ok (.jobj .nil) else json_loads s

/-- A task module as the worker sees it after `importlib.import_module`:
each entry point, when present, maps a payload to a returned value or to a
raised exception (`Except.error` carrying `str(e)`). -/
structure TaskModule where
  run_task : Option (JVal → Except PyStr JVal)
  run : Option (JVal → Except PyStr JVal)

/-- The importable modules of the process: `importlib.import_module` either
resolves a module path or raises `ModuleNotFoundError`. -/
def ModuleEnv := String → Option TaskModule

/-- The literal fallback result the worker builds when a module defines
neither `run_task` nor `run`. -/
def missingEntryMsg : PyStr := strLit "task module missing run_task / run"

/-- The entry-point dispatch of `_demo_worker_loop`: prefer `run_task`,
fall back to `run`, and if both are absent RETURN (not raise) the dict
`{"error": "task module missing run_task / run"}`. -/
def dispatch (m : TaskModule) (payload : JVal) : Except PyStr JVal :=
  match m.run_task with
  | some f => f payload
  | none =>
    match m.run with
    | some g => g payload
    | none => Except.ok (.jobj (.cons (strLit "error") (.jstr missingEntryMsg) .nil))

/-- `str(e)` of the `ModuleNotFoundError` raised for an unknown module
(message abbreviated to avoid quoting). -/
def importErrMsg (key : String) : PyStr := strLit "No module named " ++ strLit key

/-- The body of the worker's inner `try`: parse the stored payload, import
the module named by `task_key`, dispatch; any raised exception becomes
`Except.error str(e)`. -/
def runAttempt (env : ModuleEnv) (job : Job) : Except PyStr JVal :=
  match loadPayload job.payload with
  | Except.error e => Except.error e
  | Except.ok payload =>
    match env job.task_key with
    | none => Except.error (importErrMsg job.task_key)
    | some m => dispatch m payload

/-- The dict `{"error": str(e)}` recorded on failure. -/
def errObj (e : PyStr) : JVal := .jobj (.cons (strLit "error") (.jstr e) .nil)

/-- One iteration of `_demo_worker_loop` in which the SELECT runs: if a
queued row exists, mark it running (timestamp `now1`), execute the attempt
using the row as read BEFORE the update, and record `done`/`failed` with
the result dict (timestamp `now2`); with no queued row the iteration only
sleeps. -/
def demo_worker_step (env : ModuleEnv) (now1 now2 : Nat) (store : List Job) : List Job :=
  match selectOldestQueued store with
  | none => store
  | some job =>
    let store1 := update_job_status store now1 job.id "running" none
    match runAttempt env job with
    | Except.ok r => update_job_status store1 now2 job.id "done" (some r)
    | Except.error e => update_job_status store1 now2 job.id "failed" (some (errObj e))

/-- The states of the `jobs` table reachable from an empty table through
enqueues (with fresh ids) and worker iterations. -/
inductive Reachable : List Job → Prop
  | empty : Reachable []
  | enq (s : List Job) (id now pid : Nat) (key : String) (p : JVal) :
      Reachable s → get_job s id = none → Reachable (enqueue_job s id now pid key p).1
  | step (s : List Job) (env : ModuleEnv) (n1 n2 : Nat) :
      Reachable s → Reachable (demo_worker_step env n1 n2 s)

/-! ## The worker-thread startup guard

The source starts the worker under
`if "worker_thread" not in st.session_state:`; the flag lives in the
per-session `st.session_state`, while the threads started accumulate in the
process. -/

/-- Process-wide view of the startup guard: which sessions have the
`"worker_thread"` key in their session state, and how many worker threads
this process has started. -/
structure ProcessState where
  flagged : List String
  workerCount : Nat
deriving DecidableEq

/-- One execution of the module-level startup guard by session `sid`. -/
def startupGuard (sid : String) (s : ProcessState) : ProcessState :=
  if sid ∈ s.flagged then s
  else { flagged := sid :: s.flagged, workerCount := s.workerCount + 1 }

/-! ## The claim sequence, run concurrently

`master.py` creates `_job_lock` (line 135) but never acquires it: the
SELECT of the oldest queued row and the UPDATE to `running` are two
unsynchronized store operations.  The model below interleaves two agents,
each executing exactly that two-step sequence with no lock, as the spec's
claim-exclusivity property contemplates for concurrent claimers. -/

/-- One claimer executing the unprotected sequence: first the SELECT
(recording what it observed), then the UPDATE of the observed row to
`running` (recording which id it transitioned). -/
structure ClaimAgent where
  didRead : Bool
  sawJob : Option Job
  claimed : Option Nat
deriving DecidableEq

/-- Advance one agent by one atomic store operation. -/
def stepAgent (now : Nat) (st : List Job) (a : ClaimAgent) : List Job × ClaimAgent :=
  if a.didRead = false then (st, { a with didRead := true, sawJob := selectOldestQueued st })
  else
    match a.sawJob, a.claimed with
    | some j, none => (update_job_status st now j.id "running" none, { a with claimed := some j.id })
    | _, _ => (st, a)

/-- A store shared by two concurrent claimers. -/
structure RaceState where
  store : List Job
  agA : ClaimAgent
  agB : ClaimAgent
deriving DecidableEq

/-- Let the scheduled agent (true = A) take its next store operation. -/
def raceStep (now : Nat) (who : Bool) (s : RaceState) : RaceState :=
  if who then
    let p := stepAgent now s.store s.agA
    { store := p.1, agA := p.2, agB := s.agB }
  else
    let p := stepAgent now s.store s.agB
    { store := p.1, agA := s.agA, agB := p.2 }

/-- Run a schedule of interleaved agent steps. -/
def runRace (now : Nat) : List Bool → RaceState → RaceState
  | [], s => s
  | w :: ws, s => runRace now ws (raceStep now w s)

/-! ## Helper lemmas about the store operations -/

/-- A row of the updated table that carries the targeted id has the new
status, the new timestamp and the newly stored result. -/
theorem mem_update_job_status {store : List Job} {now job_id : Nat} {status : String}
    {result : Option JVal} {j : Job}
    (hj : j ∈ update_job_status store now job_id status result) (hid : j.id = job_id) :
    j.status = status ∧ j.updated_at = now ∧ j.result = storedResult result := by
  rcases List.mem_map.mp hj with ⟨j0, _hj0, heq⟩
  by_cases h : j0.id = job_id
  · rw [if_pos h] at heq
    subst heq; exact ⟨rfl, rfl, rfl⟩
  · rw [if_neg h] at heq
    subst heq; exact absurd hid h

/-- Rows with a different id survive the UPDATE untouched. -/
theorem update_keeps_other {store : List Job} {now job_id : Nat} {status : String}
    {result : Option JVal} {j : Job} (hj : j ∈ store) (hne : j.id ≠ job_id) :
    j ∈ update_job_status store now job_id status result := by
  refine List.mem_map.mpr ⟨j, hj, ?_⟩
  rw [if_neg hne]

/-- A row of the updated table with a different id was already in the table. -/
theorem mem_of_mem_update {store : List Job} {now job_id : Nat} {status : String}
    {result : Option JVal} {j : Job}
    (hj : j ∈ update_job_status store now job_id status result) (hne : j.id ≠ job_id) :
    j ∈ store := by
  rcases List.mem_map.mp hj with ⟨j0, hj0, heq⟩
  by_cases h : j0.id = job_id
  · rw [if_pos h] at heq
    subst heq; exact absurd h hne
  · rw [if_neg h] at heq
    subst heq; exact hj0

/-- The fold selecting the oldest row returns a minimal `created_at`. -/
theorem foldl_pickOlder_le (js : List Job) (a : Job) :
    ∀ k ∈ a :: js, (js.foldl pickOlder a).created_at ≤ k.created_at := by
  induction js generalizing a with
  | nil =>
    intro k hk
    rw [List.mem_singleton] at hk
    subst hk; exact le_refl _
  | cons b js ih =>
    intro k hk
    have h0 := ih (pickOlder a b) (pickOlder a b) (List.mem_cons_self _ _)
    have hab : (pickOlder a b).created_at ≤ a.created_at ∧
        (pickOlder a b).created_at ≤ b.created_at := by
      unfold pickOlder; split <;> omega
    simp only [List.foldl_cons]
    rcases List.mem_cons.mp hk with h | h
    · subst h; exact le_trans h0 hab.1
    · rcases List.mem_cons.mp h with h | h
      · subst h; exact le_trans h0 hab.2
      · exact ih (pickOlder a b) k (List.mem_cons_of_mem _ h)

/-- The fold returns the first row (in table order) among those of minimal
`created_at`: every row strictly before it is strictly younger. -/
theorem foldl_pickOlder_split (js : List Job) (a : Job) :
    ∃ q₁ q₂, a :: js = q₁ ++ (js.foldl pickOlder a) :: q₂ ∧
      ∀ k ∈ q₁, (js.foldl pickOlder a).created_at < k.created_at := by
  induction js generalizing a with
  | nil => exact ⟨[], [], rfl, by simp⟩
  | cons b js ih =>
    simp only [List.foldl_cons]
    by_cases hb : b.created_at < a.created_at
    · have hab : pickOlder a b = b := by unfold pickOlder; rw [if_pos hb]
      rw [hab]
      rcases ih b with ⟨q₁, q₂, heq, hlt⟩
      cases q₁ with
      | nil =>
        simp only [List.nil_append] at heq
        injection heq with h1 h2
        refine ⟨[a], q₂, ?_, ?_⟩
        · rw [← h1, ← h2]; rfl
        · intro k hk
          rw [List.mem_singleton] at hk
          subst hk
          rw [← h1]; exact hb
      | cons x q₁t =>
        simp only [List.cons_append] at heq
        injection heq with h1 h2
        refine ⟨a :: b :: q₁t, q₂, ?_, ?_⟩
        · rw [List.cons_append, List.cons_append, ← h2]
        · intro k hk
          have hxb : (js.foldl pickOlder b).created_at < b.created_at := by
            have h3 := hlt x (List.mem_cons_self _ _)
            rw [← h1] at h3; exact h3
          rcases List.mem_cons.mp hk with h | h
          · subst h; omega
          · rcases List.mem_cons.mp h with h | h
            · subst h; exact hxb
            · exact hlt k (List.mem_cons_of_mem _ h)
    · have hab : pickOlder a b = a := by unfold pickOlder; rw [if_neg hb]
      rw [hab]
      rcases ih a with ⟨q₁, q₂, heq, hlt⟩
      cases q₁ with
      | nil =>
        simp only [List.nil_append] at heq
        injection heq with h1 h2
        refine ⟨[], b :: q₂, ?_, by simp⟩
        rw [← h1, ← h2]; rfl
      | cons x q₁t =>
        simp only [List.cons_append] at heq
        injection heq with h1 h2
        refine ⟨a :: b :: q₁t, q₂, ?_, ?_⟩
        · rw [List.cons_append, List.cons_append, ← h2]
        · intro k hk
          have hxa : (js.foldl pickOlder a).created_at < a.created_at := by
            have h3 := hlt x (List.mem_cons_self _ _)
            rw [← h1] at h3; exact h3
          rcases List.mem_cons.mp hk with h | h
          · subst h; exact hxa
          · rcases List.mem_cons.mp h with h | h
            · subst h; omega
            · exact hlt k (List.mem_cons_of_mem _ h)

/-- What the worker's SELECT guarantees: the returned row is a queued row
of the table with minimal `created_at` among the queued rows. -/
theorem selectOldestQueued_spec {store : List Job} {j : Job}
    (h : selectOldestQueued store = some j) :
    j.status = "queued" ∧ j ∈ store ∧
      ∀ k ∈ store, k.status = "queued" → j.created_at ≤ k.created_at := by
  unfold selectOldestQueued at h
  cases hf : store.filter (fun x => x.status == "queued") with
  | nil => rw [hf] at h; cases h
  | cons a js =>
    rw [hf] at h
    injection h with h
    subst h
    have hmem : js.foldl pickOlder a ∈ a :: js := by
      rcases foldl_pickOlder_split js a with ⟨q₁, q₂, heq, _⟩
      rw [heq]
      exact List.mem_append_right _ (List.mem_cons_self _ _)
    have hmemf : js.foldl pickOlder a ∈ store.filter (fun x => x.status == "queued") := by
      rw [hf]; exact hmem
    have hq := List.mem_filter.mp hmemf
    refine ⟨by simpa using hq.2, hq.1, ?_⟩
    intro k hk hkq
    have hkf : k ∈ store.filter (fun x => x.status == "queued") :=
      List.mem_filter.mpr ⟨hk, by simp [hkq]⟩
    rw [hf] at hkf
    exact foldl_pickOlder_le js a k hkf

/-- After an iteration that selected a row, every row carrying that id is
terminal (`done` or `failed`). -/
theorem demo_worker_step_terminal {env : ModuleEnv} {n1 n2 : Nat} {store : List Job} {job : Job}
    (hsel : selectOldestQueued store = some job) :
    ∀ j ∈ demo_worker_step env n1 n2 store, j.id = job.id →
      j.status = "done" ∨ j.status = "failed" := by
  intro j hj hid
  simp only [demo_worker_step, hsel] at hj
  cases hra : runAttempt env job with
  | ok r =>
    rw [hra] at hj
    exact Or.inl (mem_update_job_status hj hid).1
  | error e =>
    rw [hra] at hj
    exact Or.inr (mem_update_job_status hj hid).1

/-! ## C4 — FIFO selection and its tie-break -/

/-- Queued row inserted first, with the larger id. -/
def jobC4a : Job :=
  { id := 5, project_id := 0, task_key := "t", status := "queued", payload := none,
    result := none, created_at := 10, updated_at := 10 }

/-- Queued row inserted second, with the smaller id and the same `created_at`. -/
def jobC4b : Job :=
  { id := 3, project_id := 0, task_key := "t", status := "queued", payload := none,
    result := none, created_at := 10, updated_at := 10 }

/-- C4 counterexample: two queued rows share `created_at`; identifier-order
tie-breaking would select id 3, but the SELECT (no secondary sort key)
returns the first row in table order, id 5 — the claimed unique minimum
under (created_at, id) order is not what is selected. -/
theorem C4_counterexample :
    jobC4a.created_at = jobC4b.created_at ∧ jobC4b.id < jobC4a.id ∧
    jobC4a.status = "queued" ∧ jobC4b.status = "queued" ∧
    selectOldestQueued [jobC4a, jobC4b] = some jobC4a :=
  ⟨rfl, by decide, rfl, rfl, rfl⟩

/-- C4 amended: in every worker iteration with at least one queued job, the
selected job is a queued job with minimal `created_at` (FIFO), and among
equal `created_at` values the tie is broken by insertion (table) order —
every queued row before the selected one is strictly younger. -/
theorem C4_amended : ∀ (store : List Job) (j : Job),
    selectOldestQueued store = some j →
    j.status = "queued" ∧ j ∈ store ∧
    (∀ k ∈ store, k.status = "queued" → j.created_at ≤ k.created_at) ∧
    ∃ q₁ q₂, store.filter (fun x => x.status == "queued") = q₁ ++ j :: q₂ ∧
      ∀ k ∈ q₁, j.created_at < k.created_at := by
  intro store j h
  have hs := selectOldestQueued_spec h
  refine ⟨hs.1, hs.2.1, hs.2.2, ?_⟩
  unfold selectOldestQueued at h
  cases hf : store.filter (fun x => x.status == "queued") with
  | nil => rw [hf] at h; cases h
  | cons a js =>
    rw [hf] at h
    injection h with h
    subst h
    exact foldl_pickOlder_split js a

/-- Queued row used to instantiate the amended C4 statement. -/
def jobC4w : Job :=
  { id := 2, project_id := 0, task_key := "t", status := "queued", payload := none,
    result := none, created_at := 4, updated_at := 4 }

/-- Witness instantiating the amended C4 statement on a one-row table. -/
theorem C4_amended_witness :
    jobC4w.status = "queued" ∧ jobC4w ∈ [jobC4w] ∧
    (∀ k ∈ [jobC4w], k.status = "queued" → jobC4w.created_at ≤ k.created_at) ∧
    ∃ q₁ q₂, ([jobC4w].filter (fun x => x.status == "queued")) = q₁ ++ jobC4w :: q₂ ∧
      ∀ k ∈ q₁, jobC4w.created_at < k.created_at :=
  C4_amended [jobC4w] jobC4w rfl

/-! ## C6 — atomicity of the pending→running claim -/

/-- The queued row both claimers race for. -/
def jobR : Job :=
  { id := 7, project_id := 0, task_key := "t", status := "queued", payload := none,
    result := none, created_at := 0, updated_at := 0 }

/-- Two claimers over a one-row store, neither having taken a step. -/
def raceInit : RaceState :=
  { store := [jobR],
    agA := { didRead := false, sawJob := none, claimed := none },
    agB := { didRead := false, sawJob := none, claimed := none } }

/-- C6: the pending→running claim sequence of `_demo_worker_loop`
(SELECT oldest queued, then UPDATE to running) acquires no lock —
`_job_lock` is created at line 135 and never used — so under the
interleaving read A, read B, write A, write B both concurrent executions
observe the same job as queued and both transition it to running, the
exact outcome the claimed mutual exclusion is supposed to exclude. -/
theorem C6_claim_sequence_unprotected :
    (runRace 3 [true, false, true, false] raceInit).agA.sawJob = some jobR ∧
    (runRace 3 [true, false, true, false] raceInit).agB.sawJob = some jobR ∧
    jobR.status = "queued" ∧
    (runRace 3 [true, false, true, false] raceInit).agA.claimed = some jobR.id ∧
    (runRace 3 [true, false, true, false] raceInit).agB.claimed = some jobR.id :=
  ⟨rfl, rfl, rfl, rfl, rfl⟩

/-! ## C7 — status update on an absent id -/

/-- The single row of the C7 tables. -/
def jobC7 : Job :=
  { id := 1, project_id := 0, task_key := "t", status := "queued", payload := none,
    result := none, created_at := 0, updated_at := 0 }

/-- C7 counterexample: updating the status of an id absent from the table
silently returns the unchanged table — the operation has no failure
outcome at all (the source's UPDATE matches zero rows and raises
nothing), so it does not fail with NotFound. -/
theorem C7_counterexample :
    get_job [jobC7] 99 = none ∧
    update_job_status [jobC7] 5 99 "done" none = [jobC7] :=
  ⟨rfl, rfl⟩

/-- The status update leaves a table without the id untouched. -/
theorem update_absent_id (store : List Job) (now id : Nat) (st : String) (r : Option JVal) :
    get_job store id = none → update_job_status store now id st r = store := by
  intro h
  unfold get_job at h
  have hall := List.find?_eq_none.mp h
  unfold update_job_status
  have hfix : ∀ j ∈ store,
      (if j.id = id then { j with status := st, updated_at := now, result := storedResult r }
       else j) = j := by
    intro j hj
    have hne : j.id ≠ id := by simpa using hall j hj
    rw [if_neg hne]
  rw [List.map_congr_left hfix, List.map_id']

/-- C7 amended: a status update whose id is absent silently succeeds,
leaving the table unchanged (it does not fail with NotFound); for every
row that does carry the id, the update always stamps `updated_at = now`
together with the new status. -/
theorem C7_amended : ∀ (store : List Job) (now id : Nat) (st : String) (r : Option JVal),
    (get_job store id = none → update_job_status store now id st r = store) ∧
    (∀ j ∈ update_job_status store now id st r, j.id = id →
      j.updated_at = now ∧ j.status = st) := by
  intro store now id st r
  refine ⟨update_absent_id store now id st r, ?_⟩
  intro j hj hid
  have h := mem_update_job_status hj hid
  exact ⟨h.2.1, h.1⟩

/-- The row as it stands after the witness update below. -/
def jobC7r : Job := { jobC7 with status := "running", updated_at := 6 }

/-- Witness instantiating the amended C7 statement: an absent id (99)
leaves the table unchanged, and updating the present id 1 stamps the new
timestamp and status. -/
theorem C7_amended_witness :
    update_job_status [jobC7] 5 99 "done" none = [jobC7] ∧
    (jobC7r.updated_at = 6 ∧ jobC7r.status = "running") :=
  ⟨(C7_amended [jobC7] 5 99 "done" none).1 rfl,
   (C7_amended [jobC7] 6 1 "running" none).2 jobC7r (by decide) rfl⟩

/-! ## C8 — worker startup guard -/

/-- C8 counterexample: the startup guard is keyed on per-session state, so
two distinct sessions each start a worker thread: after both run the
module-level guard, the process has started two worker loops, not at most
one per process lifetime. -/
theorem C8_counterexample :
    ("s1" : String) ≠ "s2" ∧
    (startupGuard "s2" (startupGuard "s1" { flagged := [], workerCount := 0 })).workerCount = 2 :=
  ⟨by decide, rfl⟩

/-- C8 amended: the start is idempotent only per session: a second start
request from a session whose session state already records the worker is a
no-op, while a session without the flag always starts one more worker
thread — so the per-process number of workers grows with the number of
distinct sessions rather than being at most one. -/
theorem C8_amended : ∀ (sid : String) (s : ProcessState),
    startupGuard sid (startupGuard sid s) = startupGuard sid s ∧
    (sid ∈ s.flagged → startupGuard sid s = s) ∧
    (sid ∉ s.flagged → (startupGuard sid s).workerCount = s.workerCount + 1) := by
  intro sid s
  by_cases h : sid ∈ s.flagged
  · exact ⟨by simp [startupGuard, h], fun _ => by simp [startupGuard, h],
      fun hn => absurd h hn⟩
  · refine ⟨?_, fun hm => absurd hm h, fun _ => by simp [startupGuard, h]⟩
    unfold startupGuard
    rw [if_neg h, if_pos (List.mem_cons_self _ _)]

/-- Witness instantiating the amended C8 statement on concrete sessions. -/
theorem C8_amended_witness :
    startupGuard "a" { flagged := ["a"], workerCount := 1 } =
      { flagged := ["a"], workerCount := 1 } ∧
    (startupGuard "b" { flagged := ["a"], workerCount := 1 }).workerCount = 2 :=
  ⟨(C8_amended "a" { flagged := ["a"], workerCount := 1 }).2.1 (by decide),
   (C8_amended "b" { flagged := ["a"], workerCount := 1 }).2.2 (by decide)⟩

/-! ## C9 — entry-point dispatch precedence -/

/-- C9: for every task module the worker prefers `run_task`, passing it the
payload; `run` is invoked (with the payload) only when `run_task` is
absent. -/
theorem C9_dispatch_precedence : ∀ (m : TaskModule) (p : JVal),
    (∀ f, m.run_task = some f → dispatch m p = f p) ∧
    (∀ g, m.run_task = none → m.run = some g → dispatch m p = g p) := by
  intro m p
  constructor
  · intro f hf
    unfold dispatch
    rw [hf]
  · intro g hrt hg
    unfold dispatch
    rw [hrt, hg]

/-- Module defining both entry points. -/
def mC9 : TaskModule :=
  { run_task := some (fun _ => Except.ok (JVal.jbool true)),
    run := some (fun _ => Except.ok (JVal.jbool false)) }

/-- Module defining only `run`. -/
def mC9b : TaskModule :=
  { run_task := none, run := some (fun _ => Except.ok (JVal.jbool false)) }

/-- Witness: with both entry points defined, `run_task`'s result is used;
with only `run` defined, `run`'s result is used. -/
theorem C9_dispatch_precedence_witness :
    dispatch mC9 JVal.jnull = Except.ok (JVal.jbool true) ∧
    dispatch mC9b JVal.jnull = Except.ok (JVal.jbool false) :=
  ⟨(C9_dispatch_precedence mC9 JVal.jnull).1 _ rfl,
   (C9_dispatch_precedence mC9b JVal.jnull).2 _ rfl rfl⟩

/-! ## C3 — enqueue -/

/-- C3: enqueueing with a fresh identifier persists, before returning, a
job with status "queued" (the state the spec names `pending`),
`created_at = updated_at = now`, no result, and the serialized payload;
the returned handle carries the id and that status; previous rows are
retained and the new id occurs exactly once. -/
theorem C3_enqueue : ∀ (store : List Job) (id now pid : Nat) (key : String) (payload : JVal),
    get_job store id = none →
    (enqueue_job store id now pid key payload).2 = (id, "queued") ∧
    get_job (enqueue_job store id now pid key payload).1 id =
      some { id := id, project_id := pid, task_key := key, status := "queued",
             payload := some (printValue payload), result := none,
             created_at := now, updated_at := now } ∧
    (∀ j ∈ store, j ∈ (enqueue_job store id now pid key payload).1) ∧
    ((enqueue_job store id now pid key payload).1.filter (fun j => j.id == id)).length = 1 := by
  intro store id now pid key payload h
  refine ⟨rfl, ?_, ?_, ?_⟩
  · unfold get_job enqueue_job
    unfold get_job at h
    rw [List.find?_append, h]
    simp
  · intro j hj
    exact List.mem_append_left _ hj
  · unfold enqueue_job
    rw [List.filter_append]
    have h1 : store.filter (fun j => j.id == id) = [] := by
      rw [List.filter_eq_nil_iff]
      intro a ha
      have h2 := List.find?_eq_none.mp h a ha
      simpa using h2
    rw [h1]
    simp

/-- Row used to instantiate the C3 statement. -/
def jobC3 : Job :=
  { id := 11, project_id := 3, task_key := "t", status := "queued",
    payload := some (printValue (JVal.jobj JMembers.nil)), result := none,
    created_at := 5, updated_at := 5 }

/-- Witness instantiating the C3 statement on an empty table. -/
theorem C3_enqueue_witness :
    (enqueue_job [] 11 5 3 "t" (JVal.jobj JMembers.nil)).2 = (11, "queued") ∧
    get_job (enqueue_job [] 11 5 3 "t" (JVal.jobj JMembers.nil)).1 11 = some jobC3 ∧
    (∀ j ∈ ([] : List Job), j ∈ (enqueue_job [] 11 5 3 "t" (JVal.jobj JMembers.nil)).1) ∧
    ((enqueue_job [] 11 5 3 "t" (JVal.jobj JMembers.nil)).1.filter
      (fun j => j.id == 11)).length = 1 :=
  C3_enqueue [] 11 5 3 "t" (JVal.jobj JMembers.nil) rfl

/-! ## C1 — unresolvable tasks and invalid entry points -/

/-- Environment of the C1 counterexample: module "m" imports but defines
neither `run_task` nor `run`. -/
def envC1 : ModuleEnv :=
  fun k => if k = "m" then some { run_task := none, run := none } else none

/-- Queued job naming module "m". -/
def jobC1 : Job :=
  { id := 1, project_id := 0, task_key := "m", status := "queued", payload := none,
    result := none, created_at := 0, updated_at := 0 }

/-- C1 counterexample: the job's task_key resolves to a module with no
valid entry point, yet one worker cycle marks it "done" (the error dict is
returned as a normal result), contradicting "status=failed ... never to
done". -/
theorem C1_counterexample :
    envC1 "m" = some { run_task := none, run := none } ∧
    (get_job (demo_worker_step envC1 1 2 [jobC1]) 1).map Job.status = some "done" :=
  ⟨rfl, rfl⟩

/-- C1 amended: a job whose task_key fails to import is failed within one
worker cycle, with the import error recorded as its result; but a job
whose module imports while defining neither `run_task` nor `run` is marked
done, with the error dict stored as an ordinary result. -/
theorem C1_amended : ∀ (env : ModuleEnv) (n1 n2 : Nat) (s : List Job) (job : Job) (p : JVal),
    selectOldestQueued s = some job →
    loadPayload job.payload = Except.ok p →
    ((env job.task_key = none →
      ∀ j ∈ demo_worker_step env n1 n2 s, j.id = job.id →
        j.status = "failed" ∧
        j.result = some (printValue (errObj (importErrMsg job.task_key)))) ∧
     (env job.task_key = some { run_task := none, run := none } →
      ∀ j ∈ demo_worker_step env n1 n2 s, j.id = job.id →
        j.status = "done" ∧ j.result = some (printValue (errObj missingEntryMsg)))) := by
  intro env n1 n2 s job p hsel hload
  constructor
  · intro henv j hj hid
    have hra : runAttempt env job = Except.error (importErrMsg job.task_key) := by
      unfold runAttempt
      rw [hload, henv]
    simp only [demo_worker_step, hsel, hra] at hj
    have h := mem_update_job_status hj hid
    refine ⟨h.1, ?_⟩
    rw [h.2.2]; rfl
  · intro henv j hj hid
    have hra : runAttempt env job = Except.ok (errObj missingEntryMsg) := by
      unfold runAttempt
      rw [hload, henv]
      rfl
    simp only [demo_worker_step, hsel, hra] at hj
    have h := mem_update_job_status hj hid
    refine ⟨h.1, ?_⟩
    rw [h.2.2]; rfl

/-- Environment with no importable module at all. -/
def envC1w : ModuleEnv := fun _ => none

/-- Queued job whose task_key "x" fails to import. -/
def jobC1w : Job :=
  { id := 4, project_id := 0, task_key := "x", status := "queued", payload := none,
    result := none, created_at := 0, updated_at := 0 }

/-- The same job after the witness worker cycle. -/
def jobC1wf : Job :=
  { jobC1w with
    status := "failed", updated_at := 9,
    result := some (printValue (errObj (importErrMsg "x"))) }

/-- Witness instantiating the amended C1 statement: an unimportable
task_key is failed with the import error recorded. -/
theorem C1_amended_witness :
    jobC1wf.status = "failed" ∧
    jobC1wf.result = some (printValue (errObj (importErrMsg jobC1w.task_key))) :=
  (C1_amended envC1w 8 9 [jobC1w] jobC1w (JVal.jobj JMembers.nil) rfl rfl).1
    rfl jobC1wf (by decide) rfl

/-! ## C2 — result presence versus status -/

/-- In every reachable table, queued and running rows carry no result, and
failed rows always carry one. -/
theorem reachable_result_invariant : ∀ s, Reachable s →
    ∀ j ∈ s, ((j.status = "queued" ∨ j.status = "running") → j.result = none) ∧
      (j.status = "failed" → j.result ≠ none) := by
  intro s hs
  induction hs with
  | empty => intro j hj; cases hj
  | enq s id now pid key p _ _ ih =>
    intro j hj
    unfold enqueue_job at hj
    rcases List.mem_append.mp hj with h | h
    · exact ih j h
    · rw [List.mem_singleton] at h
      subst h
      exact ⟨fun _ => rfl, fun hf => by simp at hf⟩
  | step s env n1 n2 _ ih =>
    intro j hj
    cases hsel : selectOldestQueued s with
    | none =>
      unfold demo_worker_step at hj
      rw [hsel] at hj
      exact ih j hj
    | some job =>
      by_cases hid : j.id = job.id
      · cases hra : runAttempt env job with
        | ok r =>
          simp only [demo_worker_step, hsel, hra] at hj
          have h := mem_update_job_status hj hid
          refine ⟨fun hqr => ?_, fun hf => ?_⟩
          · rcases hqr with hq | hq <;> rw [h.1] at hq <;> exact absurd hq (by decide)
          · rw [h.1] at hf; exact absurd hf (by decide)
        | error e =>
          simp only [demo_worker_step, hsel, hra] at hj
          have h := mem_update_job_status hj hid
          refine ⟨fun hqr => ?_, fun _ => ?_⟩
          · rcases hqr with hq | hq <;> rw [h.1] at hq <;> exact absurd hq (by decide)
          · rw [h.2.2]
            simp [storedResult, truthy, errObj]
      · simp only [demo_worker_step, hsel] at hj
        cases hra : runAttempt env job with
        | ok r =>
          rw [hra] at hj
          exact ih j (mem_of_mem_update (mem_of_mem_update hj hid) hid)
        | error e =>
          rw [hra] at hj
          exact ih j (mem_of_mem_update (mem_of_mem_update hj hid) hid)

/-- C2 amended: in every reachable state, the result is absent while the
status is queued (the spec's pending) or running, and present whenever the
status is failed; but a job that completes successfully has a present
result if and only if the task's returned value is Python-truthy — a done
job whose task returned a falsy value (such as the empty dict) has an
absent result. -/
theorem C2_amended :
    (∀ s, Reachable s →
      ∀ j ∈ s, ((j.status = "queued" ∨ j.status = "running") → j.result = none) ∧
        (j.status = "failed" → j.result ≠ none)) ∧
    (∀ (env : ModuleEnv) (n1 n2 : Nat) (s : List Job) (job : Job) (v : JVal),
      selectOldestQueued s = some job → runAttempt env job = Except.ok v →
      ∀ j ∈ demo_worker_step env n1 n2 s, j.id = job.id →
        j.status = "done" ∧
        j.result = (if truthy v then some (printValue v) else none)) := by
  refine ⟨reachable_result_invariant, ?_⟩
  intro env n1 n2 s job v hsel hra j hj hid
  simp only [demo_worker_step, hsel, hra] at hj
  have h := mem_update_job_status hj hid
  exact ⟨h.1, h.2.2⟩

/-- Environment of the C2 counterexample and witness: task "t" returns the
empty dict, a falsy value. -/
def envC2 : ModuleEnv := fun k =>
  if k = "t" then
    some { run_task := some (fun _ => Except.ok (JVal.jobj JMembers.nil)), run := none }
  else none

/-- The table holding the enqueued job, before the worker cycle. -/
def storeC2w : List Job := (enqueue_job [] 0 0 0 "t" (JVal.jobj JMembers.nil)).1

/-- The reachable table of the C2 counterexample, after the worker cycle. -/
def storeC2 : List Job := demo_worker_step envC2 1 2 storeC2w

/-- C2 counterexample: a reachable state holds a job that completed
successfully (the task returned the dict {}) with status "done" and a NULL
result — a done job whose result is absent. -/
theorem C2_counterexample :
    Reachable storeC2 ∧
    (get_job storeC2 0).map Job.status = some "done" ∧
    (get_job storeC2 0).map Job.result = some none :=
  ⟨Reachable.step storeC2w envC2 1 2
      (Reachable.enq [] 0 0 0 "t" (JVal.jobj JMembers.nil) Reachable.empty rfl),
   rfl, rfl⟩

/-- The enqueued row of the witness, as a literal record. -/
def jobC2w : Job :=
  { id := 0, project_id := 0, task_key := "t", status := "queued",
    payload := some [123, 125], result := none, created_at := 0, updated_at := 0 }

/-- The same row after the worker cycle. -/
def jobC2d : Job := { jobC2w with status := "done", updated_at := 2, result := none }

/-- Witness instantiating the amended C2 statement: the done row's result
is governed by the truthiness of the returned value. -/
theorem C2_amended_witness :
    jobC2d.status = "done" ∧
    jobC2d.result =
      (if truthy (JVal.jobj JMembers.nil) then some (printValue (JVal.jobj JMembers.nil))
       else none) :=
  C2_amended.2 envC2 1 2 storeC2w jobC2w (JVal.jobj JMembers.nil) rfl rfl jobC2d (by decide) rfl

/-! ## C5 — task errors are contained -/

/-- C5: when the invoked task raises, the error is caught and recorded on
the selected job as status failed with the structured error dict; every
other row is untouched; and the next iteration selects a different,
still-queued job and drives it to a terminal status, so the loop keeps
processing. -/
theorem C5_task_error_contained : ∀ (env : ModuleEnv) (n1 n2 : Nat) (s : List Job)
    (job : Job) (p : JVal) (m : TaskModule) (e : PyStr),
    selectOldestQueued s = some job →
    loadPayload job.payload = Except.ok p →
    env job.task_key = some m →
    dispatch m p = Except.error e →
    ((∀ j ∈ demo_worker_step env n1 n2 s, j.id = job.id →
        j.status = "failed" ∧ j.result = some (printValue (errObj e))) ∧
     (∀ j ∈ s, j.id ≠ job.id → j ∈ demo_worker_step env n1 n2 s) ∧
     (∀ job2, selectOldestQueued (demo_worker_step env n1 n2 s) = some job2 →
        job2.id ≠ job.id ∧ job2.status = "queued" ∧
        ∀ (env2 : ModuleEnv) (n3 n4 : Nat),
          ∀ j ∈ demo_worker_step env2 n3 n4 (demo_worker_step env n1 n2 s),
            j.id = job2.id → j.status = "done" ∨ j.status = "failed")) := by
  intro env n1 n2 s job p m e hsel hload henv hdisp
  have hra : runAttempt env job = Except.error e := by
    unfold runAttempt
    rw [hload, henv]
    exact hdisp
  have hpart1 : ∀ j ∈ demo_worker_step env n1 n2 s, j.id = job.id →
      j.status = "failed" ∧ j.result = some (printValue (errObj e)) := by
    intro j hj hid
    simp only [demo_worker_step, hsel, hra] at hj
    have h := mem_update_job_status hj hid
    refine ⟨h.1, ?_⟩
    rw [h.2.2]; rfl
  refine ⟨hpart1, ?_, ?_⟩
  · intro j hj hne
    simp only [demo_worker_step, hsel, hra]
    exact update_keeps_other (update_keeps_other hj hne) hne
  · intro job2 hsel2
    have hq2 := selectOldestQueued_spec hsel2
    have hne : job2.id ≠ job.id := by
      intro he
      have hf := (hpart1 job2 hq2.2.1 he).1
      rw [hq2.1] at hf
      exact absurd hf (by decide)
    exact ⟨hne, hq2.1, fun env2 n3 n4 j hj hid => demo_worker_step_terminal hsel2 j hj hid⟩

/-- Environment of the C5 witness: task "d" raises on invocation. -/
def envC5 : ModuleEnv := fun k =>
  if k = "d" then
    some { run_task := some (fun _ => Except.error (strLit "division by zero")), run := none }
  else none

/-- First queued job of the C5 witness (selected first). -/
def jobC5a : Job :=
  { id := 1, project_id := 0, task_key := "d", status := "queued", payload := none,
    result := none, created_at := 1, updated_at := 1 }

/-- Second queued job of the C5 witness. -/
def jobC5b : Job :=
  { id := 2, project_id := 0, task_key := "d", status := "queued", payload := none,
    result := none, created_at := 2, updated_at := 2 }

/-- The first job after the failing cycle. -/
def jobC5af : Job :=
  { jobC5a with
    status := "failed", updated_at := 4,
    result := some (printValue (errObj (strLit "division by zero"))) }

/-- Witness instantiating the C5 statement: the raising task's job fails
with the recorded error, the second job survives untouched, and the next
iteration processes it. -/
theorem C5_task_error_contained_witness :
    (jobC5af.status = "failed" ∧
      jobC5af.result = some (printValue (errObj (strLit "division by zero")))) ∧
    jobC5b ∈ demo_worker_step envC5 3 4 [jobC5a, jobC5b] ∧
    (jobC5b.id ≠ jobC5a.id ∧ jobC5b.status = "queued" ∧
      ∀ (env2 : ModuleEnv) (n3 n4 : Nat),
        ∀ j ∈ demo_worker_step env2 n3 n4 (demo_worker_step envC5 3 4 [jobC5a, jobC5b]),
          j.id = jobC5b.id → j.status = "done" ∨ j.status = "failed") :=
  have h := C5_task_error_contained envC5 3 4 [jobC5a, jobC5b] jobC5a (JVal.jobj JMembers.nil)
    { run_task := some (fun _ => Except.error (strLit "division by zero")), run := none }
    (strLit "division by zero") rfl rfl rfl rfl
  ⟨h.1 jobC5af (by decide) rfl, h.2.1 jobC5b (by decide) (by decide), h.2.2 jobC5b rfl⟩

/-! ## Round-trip lemmas: decimal numbers -/

/-- The remaining input does not begin with a digit, so a scanned number
cannot be extended into it. -/
def delimOk : PyStr → Prop
  | [] => True
  | c :: _ => isDigitCp c = false

/-- The digit accumulator only prepends to its accumulator. -/
theorem natDigitsAux_append : ∀ (f n : Nat) (acc : PyStr), n < 10 ^ f →
    natDigitsAux f n acc = natDigitsAux f n [] ++ acc := by
  intro f
  induction f with
  | zero => intro n acc _; rfl
  | succ f ih =>
    intro n acc _h
    by_cases h10 : n < 10
    · simp [natDigitsAux, h10]
    · have hrec : n / 10 < 10 ^ f := by
        have : n < 10 ^ (f + 1) := _h
        rw [pow_succ] at this
        omega
      simp only [natDigitsAux, if_neg h10]
      rw [ih (n / 10) ((48 + n % 10) :: acc) hrec, ih (n / 10) [48 + n % 10] hrec,
        List.append_assoc]
      rfl

/-- With sufficient fuel the digit accumulator is fuel-independent. -/
theorem natDigitsAux_fuel : ∀ (f g n : Nat), n < 10 ^ f → n < 10 ^ g →
    0 < f → 0 < g → natDigitsAux f n [] = natDigitsAux g n [] := by
  intro f
  induction f with
  | zero => intro g n _ _ hf; omega
  | succ f ih =>
    intro g n hnf hng _ hg
    cases g with
    | zero => omega
    | succ g =>
      by_cases h10 : n < 10
      · simp [natDigitsAux, h10]
      · have hf1 : 0 < f := by
          by_contra h
          have : f = 0 := by omega
          subst this
          simp at hnf
          omega
        have hg1 : 0 < g := by
          by_contra h
          have : g = 0 := by omega
          subst this
          simp at hng
          omega
        have hrf : n / 10 < 10 ^ f := by rw [pow_succ] at hnf; omega
        have hrg : n / 10 < 10 ^ g := by rw [pow_succ] at hng; omega
        simp only [natDigitsAux, if_neg h10]
        rw [natDigitsAux_append f (n / 10) _ hrf, natDigitsAux_append g (n / 10) _ hrg,
          ih g (n / 10) hrf hrg hf1 hg1]

/-- The digit run scanned back over printed digits accumulates the printed
number. -/
theorem parseDigitsAux_natDigitsAux : ∀ (f n : Nat) (rest : PyStr) (acc : Nat),
    n < 10 ^ f → 0 < f →
    parseDigitsAux (natDigitsAux f n [] ++ rest) acc =
      parseDigitsAux rest (acc * 10 ^ (natDigitsAux f n []).length + n) := by
  intro f
  induction f with
  | zero => intro n rest acc h hf; omega
  | succ f ih =>
    intro n rest acc hn _
    by_cases h10 : n < 10
    · simp only [natDigitsAux, if_pos h10]
      have hd : isDigitCp (48 + n) = true := by unfold isDigitCp; simp; omega
      simp only [List.cons_append, List.nil_append, parseDigitsAux, hd, if_pos]
      have h48 : 48 + n - 48 = n := by omega
      rw [h48]
      norm_num
    · have hf1 : 0 < f := by
        by_contra h
        have : f = 0 := by omega
        subst this
        simp at hn
        omega
      have hrec : n / 10 < 10 ^ f := by rw [pow_succ] at hn; omega
      simp only [natDigitsAux, if_neg h10]
      rw [natDigitsAux_append f (n / 10) _ hrec, List.append_assoc]
      rw [ih (n / 10) _ acc hrec hf1]
      have hd : isDigitCp (48 + n % 10) = true := by unfold isDigitCp; simp; omega
      simp only [List.cons_append, List.nil_append, parseDigitsAux, hd, if_pos]
      have h48 : 48 + n % 10 - 48 = n % 10 := by omega
      rw [h48, List.length_append]
      have harith : ∀ L : Nat, (acc * 10 ^ L + n / 10) * 10 + n % 10 = acc * 10 ^ (L + 1) + n := by
        intro L
        have := Nat.div_add_mod n 10
        ring_nf
        omega
      rw [harith]
      norm_num

/-- The printed digits of `n` form a nonempty digit string. -/
theorem natDigitsAux_head : ∀ (f n : Nat), n < 10 ^ f → 0 < f →
    ∃ c t, natDigitsAux f n [] = c :: t ∧ isDigitCp c = true := by
  intro f
  induction f with
  | zero => intro n h hf; omega
  | succ f ih =>
    intro n hn _
    by_cases h10 : n < 10
    · refine ⟨48 + n, [], by simp [natDigitsAux, h10], ?_⟩
      unfold isDigitCp; simp; omega
    · have hf1 : 0 < f := by
        by_contra h
        have : f = 0 := by omega
        subst this
        simp at hn
        omega
      have hrec : n / 10 < 10 ^ f := by rw [pow_succ] at hn; omega
      rcases ih (n / 10) hrec hf1 with ⟨c, t, hct, hd⟩
      refine ⟨c, t ++ [48 + n % 10], ?_, hd⟩
      simp only [natDigitsAux, if_neg h10]
      rw [natDigitsAux_append f (n / 10) _ hrec, hct]
      rfl

/-- Round trip for an unsigned decimal integer. -/
theorem parseDigits_natDigits (n : Nat) (rest : PyStr) (hrest : delimOk rest) :
    parseDigits (natDigits n ++ rest) = some (n, rest) := by
  have hbound : n < 10 ^ (n + 1) := by
    calc n < 10 ^ n := Nat.lt_pow_self (by norm_num) n
    _ ≤ 10 ^ (n + 1) := Nat.pow_le_pow_right (by norm_num) (by omega)
  have hpos : 0 < n + 1 := by omega
  rcases natDigitsAux_head (n + 1) n hbound hpos with ⟨c, t, hct, hd⟩
  unfold natDigits
  rw [hct]
  simp only [List.cons_append, parseDigits, hd, if_pos]
  have hback : c :: (t ++ rest) = natDigitsAux (n + 1) n [] ++ rest := by rw [hct]; rfl
  rw [hback, parseDigitsAux_natDigitsAux (n + 1) n rest 0 hbound hpos]
  cases rest with
  | nil => simp [parseDigitsAux]
  | cons c2 r2 =>
    have hd2 : isDigitCp c2 = false := hrest
    simp [parseDigitsAux, hd2]

/-! ## Round-trip lemmas: strings -/

/-- A printed hex digit is a hex digit. -/
theorem isHexDigit_hexDig (d : Nat) (h : d < 16) : isHexDigit (hexDig d) = true := by
  unfold isHexDigit hexDig
  by_cases h10 : d < 10
  · rw [if_pos h10]
    simp only [Bool.or_eq_true, Bool.and_eq_true, decide_eq_true_eq]
    omega
  · rw [if_neg h10]
    simp only [Bool.or_eq_true, Bool.and_eq_true, decide_eq_true_eq]
    omega

/-- A printed hex digit scans back to its value. -/
theorem hexValT_hexDig (d : Nat) (h : d < 16) : hexValT (hexDig d) = d := by
  unfold hexValT hexDig
  by_cases h10 : d < 10
  · rw [if_pos h10, if_pos (by omega)]
    omega
  · rw [if_neg h10, if_neg (by omega), if_pos (by omega)]
    omega

/-- The four printed hex digits of a value below 0x10000 recombine to it. -/
theorem hex4_value (n : Nat) (h : n < 65536) :
    n / 4096 % 16 * 4096 + n / 256 % 16 * 256 + n / 16 % 16 * 16 + n % 16 = n := by
  omega

/-- Scanning a printed non-surrogate BMP escape yields its code point. -/
theorem parseStringBody_u (f n : Nat) (hn : n < 65536) (hsur : ¬(55296 ≤ n ∧ n < 56320))
    (tail : PyStr) :
    parseStringBody (f + 1) (92 :: 117 :: (hex4 n ++ tail)) =
      (parseStringBody f tail).map (fun p => (n :: p.1, p.2)) := by
  have hm : n / 4096 % 16 < 16 ∧ n / 256 % 16 < 16 ∧ n / 16 % 16 < 16 ∧ n % 16 < 16 := by omega
  simp only [hex4, List.cons_append, List.nil_append, parseStringBody]
  norm_num
  rw [isHexDigit_hexDig _ hm.1, isHexDigit_hexDig _ hm.2.1,
    isHexDigit_hexDig _ hm.2.2.1, isHexDigit_hexDig _ hm.2.2.2]
  norm_num
  rw [hexValT_hexDig _ hm.1, hexValT_hexDig _ hm.2.1,
    hexValT_hexDig _ hm.2.2.1, hexValT_hexDig _ hm.2.2.2]
  rw [hex4_value n hn, if_neg hsur]

/-- Scanning a printed surrogate-pair escape joins the two halves. -/
theorem parseStringBody_u2 (f n m : Nat) (hn1 : 55296 ≤ n) (hn2 : n < 56320)
    (hm1 : 56320 ≤ m) (hm2 : m < 57344) (tail : PyStr) :
    parseStringBody (f + 1) (92 :: 117 :: (hex4 n ++ (92 :: 117 :: (hex4 m ++ tail)))) =
      (parseStringBody f tail).map
        (fun p => ((65536 + (n - 55296) * 1024 + (m - 56320)) :: p.1, p.2)) := by
  have hn : n < 65536 := by omega
  have hm : m < 65536 := by omega
  have hmn : n / 4096 % 16 < 16 ∧ n / 256 % 16 < 16 ∧ n / 16 % 16 < 16 ∧ n % 16 < 16 := by omega
  have hmm : m / 4096 % 16 < 16 ∧ m / 256 % 16 < 16 ∧ m / 16 % 16 < 16 ∧ m % 16 < 16 := by omega
  simp only [hex4, List.cons_append, List.nil_append, parseStringBody]
  norm_num
  rw [isHexDigit_hexDig _ hmn.1, isHexDigit_hexDig _ hmn.2.1,
    isHexDigit_hexDig _ hmn.2.2.1, isHexDigit_hexDig _ hmn.2.2.2]
  norm_num
  rw [hexValT_hexDig _ hmn.1, hexValT_hexDig _ hmn.2.1,
    hexValT_hexDig _ hmn.2.2.1, hexValT_hexDig _ hmn.2.2.2]
  rw [hex4_value n hn, if_pos ⟨hn1, hn2⟩]
  rw [isHexDigit_hexDig _ hmm.1, isHexDigit_hexDig _ hmm.2.1,
    isHexDigit_hexDig _ hmm.2.2.1, isHexDigit_hexDig _ hmm.2.2.2]
  norm_num
  rw [hexValT_hexDig _ hmm.1, hexValT_hexDig _ hmm.2.1,
    hexValT_hexDig _ hmm.2.2.1, hexValT_hexDig _ hmm.2.2.2]
  rw [hex4_value m hm, if_pos ⟨hm1, hm2⟩]

/-- Scanning the escaped body of a well-formed string recovers it. -/
theorem parseStringBody_round : ∀ (s : PyStr) (f : Nat) (rest : PyStr),
    s.all wfChar = true → s.length < f →
    parseStringBody f (escapeString s ++ (34 :: rest)) = some (s, rest) := by
  intro s
  induction s with
  | nil =>
    intro f rest _ hf
    cases f with
    | zero => omega
    | succ f => simp [escapeString, parseStringBody]
  | cons c s ih =>
    intro f rest hwf hf
    cases f with
    | zero => omega
    | succ f =>
      have hwf1 : wfChar c = true ∧ s.all wfChar = true := by simpa using hwf
      have hc : c < 1114112 ∧ (c < 55296 ∨ 57344 ≤ c) := by
        have h2 := hwf1.1
        unfold wfChar at h2
        simpa using h2
      have hlen : s.length < f := by
        simp only [List.length_cons] at hf
        omega
      have hih := ih f rest hwf1.2 hlen
      simp only [escapeString, List.append_assoc]
      unfold escapeChar
      split_ifs with h1 h2 h3 h4 h5 h6 h7 h8 h9
      · subst h1; simp [parseStringBody, hih]
      · subst h2; simp [parseStringBody, hih]
      · subst h3; simp [parseStringBody, hih]
      · subst h4; simp [parseStringBody, hih]
      · subst h5; simp [parseStringBody, hih]
      · subst h6; simp [parseStringBody, hih]
      · subst h7; simp [parseStringBody, hih]
      · simp only [List.cons_append, List.nil_append, parseStringBody]
        rw [if_neg h1, if_neg h2]
        simp only [List.append_eq, List.nil_append]
        rw [hih]
        rfl
      · have hsur : ¬(55296 ≤ c ∧ c < 56320) := by rcases hc.2 with h | h <;> omega
        simp only [List.cons_append, List.append_assoc]
        rw [parseStringBody_u f c h9 hsur, hih]
        rfl
      · simp only [List.cons_append, List.append_assoc]
        rw [parseStringBody_u2 f (55296 + (c - 65536) / 1024) (56320 + (c - 65536) % 1024)
          (by omega) (by omega) (by omega) (by omega) (escapeString s ++ 34 :: rest)]
        rw [hih]
        have hval : 65536 + (55296 + (c - 65536) / 1024 - 55296) * 1024 +
            (56320 + (c - 65536) % 1024 - 56320) = c := by omega
        rw [hval]
        rfl

/-! ## Round-trip lemmas: values -/

/-- Each escaped code point occupies at least one output code point. -/
theorem escapeChar_length (c : Nat) : 1 ≤ (escapeChar c).length := by
  unfold escapeChar
  split_ifs <;> simp [hex4]

/-- Escaping does not shorten a string. -/
theorem escapeString_length (s : PyStr) : s.length ≤ (escapeString s).length := by
  induction s with
  | nil => simp [escapeString]
  | cons c s ih =>
    have h := escapeChar_length c
    simp only [escapeString, List.length_append, List.length_cons]
    omega

/-- The printed digits of a natural number are nonempty. -/
theorem natDigits_length_pos (m : Nat) : 1 ≤ (natDigits m).length := by
  have hbound : m < 10 ^ (m + 1) := by
    calc m < 10 ^ m := Nat.lt_pow_self (by norm_num) m
    _ ≤ 10 ^ (m + 1) := Nat.pow_le_pow_right (by norm_num) (by omega)
  rcases natDigitsAux_head (m + 1) m hbound (by omega) with ⟨c, t, hct, _⟩
  unfold natDigits
  rw [hct]
  simp

/-- A leading whitespace code point is skipped by the value scanner. -/
theorem parseValue_ws32 (f : Nat) (s : PyStr) : parseValue f (32 :: s) = parseValue f s := by
  cases f with
  | zero => rfl
  | succ f =>
    simp only [parseValue]
    rw [show skipWs (32 :: s) = skipWs s by simp [skipWs]]

/-- The code points a printed value can start with. -/
def valueStart (c : Nat) : Prop :=
  c = 110 ∨ c = 116 ∨ c = 102 ∨ c = 34 ∨ c = 91 ∨ c = 123 ∨ c = 45 ∨ isDigitCp c = true

/-- Every printed value is nonempty and starts with a value-start point. -/
theorem printValue_head (v : JVal) : ∃ c t, printValue v = c :: t ∧ valueStart c := by
  cases v with
  | jnull => exact ⟨110, _, rfl, Or.inl rfl⟩
  | jbool b =>
    cases b with
    | true => exact ⟨116, _, rfl, Or.inr (Or.inl rfl)⟩
    | false => exact ⟨102, _, rfl, Or.inr (Or.inr (Or.inl rfl))⟩
  | jnum n =>
    by_cases hn : n < 0
    · refine ⟨45, natDigits n.natAbs, ?_, by unfold valueStart; tauto⟩
      simp [printValue, printInt, hn]
    · have hbound : n.toNat < 10 ^ (n.toNat + 1) := by
        calc n.toNat < 10 ^ n.toNat := Nat.lt_pow_self (by norm_num) _
        _ ≤ 10 ^ (n.toNat + 1) := Nat.pow_le_pow_right (by norm_num) (by omega)
      rcases natDigitsAux_head (n.toNat + 1) n.toNat hbound (by omega) with ⟨c, t, hct, hd⟩
      refine ⟨c, t, ?_, by unfold valueStart; tauto⟩
      simp only [printValue, printInt, if_neg hn]
      unfold natDigits
      exact hct
  | jstr s => exact ⟨34, _, rfl, by unfold valueStart; tauto⟩
  | jarr xs =>
    cases xs with
    | nil => exact ⟨91, _, rfl, by unfold valueStart; tauto⟩
    | cons x xs => exact ⟨91, _, rfl, by unfold valueStart; tauto⟩
  | jobj kvs =>
    cases kvs with
    | nil => exact ⟨123, _, rfl, by unfold valueStart; tauto⟩
    | cons k v kvs => exact ⟨123, _, rfl, by unfold valueStart; tauto⟩

/-- A value-start point is not whitespace. -/
theorem valueStart_not_ws (c : Nat) (h : valueStart c) :
    ¬(c = 32 ∨ c = 9 ∨ c = 10 ∨ c = 13) := by
  unfold valueStart at h
  unfold isDigitCp at h
  simp only [Bool.and_eq_true, decide_eq_true_eq] at h
  rcases h with h | h | h | h | h | h | h | h <;> omega

/-- A value-start point is not a closing bracket or brace. -/
theorem valueStart_ne (c : Nat) (h : valueStart c) : c ≠ 93 ∧ c ≠ 125 := by
  unfold valueStart at h
  unfold isDigitCp at h
  simp only [Bool.and_eq_true, decide_eq_true_eq] at h
  rcases h with h | h | h | h | h | h | h | h <;> omega

/-- The tail following a printed array element never starts with a digit. -/
theorem itemsTail_delim (xs : JList) (rest : PyStr) :
    delimOk (printItemsTail xs ++ (93 :: rest)) := by
  cases xs with
  | nil => simp [printItemsTail, delimOk, isDigitCp]
  | cons x xs => simp [printItemsTail, delimOk, isDigitCp]

/-- The tail following a printed dict member never starts with a digit. -/
theorem membersTail_delim (kvs : JMembers) (rest : PyStr) :
    delimOk (printMembersTail kvs ++ (125 :: rest)) := by
  cases kvs with
  | nil => simp [printMembersTail, delimOk, isDigitCp]
  | cons k v kvs => simp [printMembersTail, delimOk, isDigitCp]

mutual
/-- Fuel sufficient for the value scanner on a printed value. -/
def jfuel : JVal → Nat
  | .jnull => 1
  | .jbool _ => 1
  | .jnum _ => 1
  | .jstr _ => 1
  | .jarr .nil => 1
  | .jarr (.cons x xs) => 1 + max (jfuel x) (lfuel xs)
  | .jobj .nil => 1
  | .jobj (.cons _ v kvs) => 1 + max (jfuel v) (mfuel kvs)
termination_by structural v => v

/-- Fuel sufficient for the element scanner on printed list elements. -/
def lfuel : JList → Nat
  | .nil => 1
  | .cons x xs => 1 + max (jfuel x) (lfuel xs)
termination_by structural xs => xs

/-- Fuel sufficient for the member scanner on printed dict members. -/
def mfuel : JMembers → Nat
  | .nil => 1
  | .cons _ v kvs => 1 + max (jfuel v) (mfuel kvs)
termination_by structural kvs => kvs
end

/-- Value fuel is positive. -/
theorem jfuel_pos (v : JVal) : 1 ≤ jfuel v := by
  cases v with
  | jarr xs => cases xs <;> simp [jfuel]
  | jobj kvs => cases kvs <;> simp [jfuel]
  | jnull => simp [jfuel]
  | jbool b => simp [jfuel]
  | jnum n => simp [jfuel]
  | jstr s => simp [jfuel]

/-- Element fuel is positive. -/
theorem lfuel_pos (xs : JList) : 1 ≤ lfuel xs := by
  cases xs <;> simp [lfuel]

/-- Member fuel is positive. -/
theorem mfuel_pos (kvs : JMembers) : 1 ≤ mfuel kvs := by
  cases kvs <;> simp [mfuel]

mutual
/-- The printed length of a value bounds its fuel. -/
theorem jfuel_le : (v : JVal) → jfuel v ≤ (printValue v).length
  | .jnull => by simp [jfuel, printValue]
  | .jbool b => by cases b <;> simp [jfuel, printValue]
  | .jnum n => by
      have h : 1 ≤ (printInt n).length := by
        unfold printInt
        split_ifs
        · simp
        · exact natDigits_length_pos _
      simp only [jfuel, printValue]
      omega
  | .jstr s => by simp [jfuel, printValue]
  | .jarr .nil => by simp [jfuel, printValue]
  | .jarr (.cons x xs) => by
      have h1 := jfuel_le x
      have h2 := lfuel_le xs
      simp only [jfuel, printValue, List.length_cons, List.length_append]
      omega
  | .jobj .nil => by simp [jfuel, printValue]
  | .jobj (.cons k v kvs) => by
      have h1 := jfuel_le v
      have h2 := mfuel_le kvs
      simp only [jfuel, printValue, List.length_cons, List.length_append]
      omega
termination_by structural v => v

/-- The printed length of list elements bounds the element fuel. -/
theorem lfuel_le : (xs : JList) → lfuel xs ≤ (printItemsTail xs).length + 1
  | .nil => by simp [lfuel, printItemsTail]
  | .cons x xs => by
      have h1 := jfuel_le x
      have h2 := lfuel_le xs
      simp only [lfuel, printItemsTail, List.length_cons, List.length_append]
      omega
termination_by structural xs => xs

/-- The printed length of dict members bounds the member fuel. -/
theorem mfuel_le : (kvs : JMembers) → mfuel kvs ≤ (printMembersTail kvs).length + 1
  | .nil => by simp [mfuel, printMembersTail]
  | .cons k v kvs => by
      have h1 := jfuel_le v
      have h2 := mfuel_le kvs
      simp only [mfuel, printMembersTail, List.length_cons, List.length_append]
      omega
termination_by structural kvs => kvs
end

/-- A non-whitespace head survives whitespace skipping. -/
theorem skipWs_keep (c : Nat) (r : PyStr) (h : ¬(c = 32 ∨ c = 9 ∨ c = 10 ∨ c = 13)) :
    skipWs (c :: r) = c :: r := by
  unfold skipWs
  rw [if_neg h]

/-- Scanning printed output with sufficient fuel recovers the value, the
remaining list elements, or the remaining dict members, leaving the
delimited rest untouched. -/
theorem parse_print : ∀ f : Nat,
    (∀ (v : JVal) (rest : PyStr), jwfB v = true → jfuel v ≤ f → delimOk rest →
      parseValue f (printValue v ++ rest) = some (v, rest)) ∧
    (∀ (xs : JList) (rest : PyStr), lwfB xs = true → lfuel xs ≤ f →
      parseItems f (printItemsTail xs ++ (93 :: rest)) = some (xs, rest)) ∧
    (∀ (kvs : JMembers) (rest : PyStr), mwfB kvs = true → mfuel kvs ≤ f →
      parseMembers f (printMembersTail kvs ++ (125 :: rest)) = some (kvs, rest)) := by
  intro f
  induction f with
  | zero =>
    refine ⟨fun v rest _ hf _ => ?_, fun xs rest _ hf => ?_, fun kvs rest _ hf => ?_⟩
    · exact absurd hf (by have := jfuel_pos v; omega)
    · exact absurd hf (by have := lfuel_pos xs; omega)
    · exact absurd hf (by have := mfuel_pos kvs; omega)
  | succ f ih =>
    obtain ⟨ihv, ihl, ihm⟩ := ih
    refine ⟨?_, ?_, ?_⟩
    · intro v rest hwf hfuel hrest
      cases v with
      | jnull => simp [printValue, parseValue, skipWs]
      | jbool b => cases b <;> simp [printValue, parseValue, skipWs]
      | jnum n =>
        simp only [printValue, printInt]
        by_cases hn : n < 0
        · rw [if_pos hn]
          simp only [parseValue, List.cons_append]
          rw [show skipWs (45 :: (natDigits n.natAbs ++ rest)) =
            45 :: (natDigits n.natAbs ++ rest) by unfold skipWs; rw [if_neg (by omega)]]
          norm_num
          rw [parseDigits_natDigits n.natAbs rest hrest]
          dsimp only
          have hneg : (-(n.natAbs : Int)) = n := by omega
          rw [hneg]
        · rw [if_neg hn]
          have hbound : n.toNat < 10 ^ (n.toNat + 1) := by
            calc n.toNat < 10 ^ n.toNat := Nat.lt_pow_self (by norm_num) _
            _ ≤ 10 ^ (n.toNat + 1) := Nat.pow_le_pow_right (by norm_num) (by omega)
          rcases natDigitsAux_head (n.toNat + 1) n.toNat hbound (by omega) with ⟨c, t, hct, hd⟩
          have hdig : 48 ≤ c ∧ c ≤ 57 := by
            unfold isDigitCp at hd
            simp only [Bool.and_eq_true, decide_eq_true_eq] at hd
            exact hd
          have hnd : natDigits n.toNat = c :: t := by unfold natDigits; exact hct
          rw [hnd]
          simp only [parseValue, List.cons_append]
          rw [show skipWs (c :: (t ++ rest)) = c :: (t ++ rest) by
            unfold skipWs; rw [if_neg (by omega)]]
          dsimp only
          rw [if_neg (by omega), if_neg (by omega), if_neg (by omega), if_neg (by omega),
            if_neg (by omega), if_neg (by omega), if_neg (by omega), if_pos hd]
          rw [← List.cons_append, ← hnd, parseDigits_natDigits n.toNat rest hrest]
          dsimp only
          have hpos : ((n.toNat : Int)) = n := by omega
          rw [hpos]
      | jstr s =>
        have hswf : s.all wfChar = true := by simpa [jwfB] using hwf
        simp only [printValue, List.cons_append, List.append_assoc, List.nil_append]
        simp only [parseValue]
        rw [skipWs_keep 34 _ (by omega)]
        dsimp only
        norm_num
        rw [parseStringBody_round s _ _ hswf (by
          have h1 := escapeString_length s
          omega)]
      | jarr xs =>
        cases xs with
        | nil => simp [printValue, parseValue, skipWs]
        | cons x xs =>
          have hx : jwfB x = true ∧ lwfB xs = true := by
            have h1 := hwf
            simp only [jwfB, lwfB, Bool.and_eq_true] at h1
            exact h1
          have hfx : jfuel x ≤ f ∧ lfuel xs ≤ f := by
            simp only [jfuel] at hfuel
            omega
          simp only [printValue, List.cons_append, List.append_assoc]
          simp only [parseValue]
          rw [skipWs_keep 91 _ (by omega)]
          dsimp only
          norm_num
          rcases printValue_head x with ⟨cx, tx, hpx, hvs⟩
          rw [hpx, List.cons_append]
          rw [skipWs_keep cx _ (valueStart_not_ws cx hvs)]
          dsimp only
          rw [if_neg (valueStart_ne cx hvs).1]
          rw [← List.cons_append, ← hpx]
          rw [ihv x (printItemsTail xs ++ (93 :: rest)) hx.1 hfx.1 (itemsTail_delim xs rest)]
          dsimp only
          rw [ihl xs rest hx.2 hfx.2]
      | jobj kvs =>
        cases kvs with
        | nil => simp [printValue, parseValue, skipWs]
        | cons k v kvs =>
          have hm : k.all wfChar = true ∧ jwfB v = true ∧ mwfB kvs = true := by
            have h1 := hwf
            simp only [jwfB, mwfB, Bool.and_eq_true] at h1
            tauto
          have hfm : jfuel v ≤ f ∧ mfuel kvs ≤ f := by
            simp only [jfuel] at hfuel
            omega
          simp only [printValue, List.cons_append, List.append_assoc]
          simp only [parseValue]
          rw [skipWs_keep 123 _ (by omega)]
          dsimp only
          norm_num
          rw [skipWs_keep 34 _ (by omega)]
          dsimp only
          norm_num
          rw [parseStringBody_round k _ _ hm.1 (by
            have h1 := escapeString_length k
            omega)]
          dsimp only
          rw [skipWs_keep 58 _ (by omega)]
          dsimp only
          rw [parseValue_ws32]
          rw [ihv v (printMembersTail kvs ++ (125 :: rest)) hm.2.1 hfm.1
            (membersTail_delim kvs rest)]
          dsimp only
          rw [ihm kvs rest hm.2.2 hfm.2]
    · intro xs rest hwf hfuel
      cases xs with
      | nil => simp [printItemsTail, parseItems, skipWs]
      | cons x xs =>
          have hx : jwfB x = true ∧ lwfB xs = true := by
            have h1 := hwf
            simp only [lwfB, Bool.and_eq_true] at h1
            exact h1
          have hfx : jfuel x ≤ f ∧ lfuel xs ≤ f := by
            simp only [lfuel] at hfuel
            omega
          simp only [printItemsTail, List.cons_append, List.append_assoc]
          simp only [parseItems]
          rw [skipWs_keep 44 _ (by omega)]
          dsimp only
          norm_num
          rw [parseValue_ws32]
          rw [ihv x (printItemsTail xs ++ (93 :: rest)) hx.1 hfx.1 (itemsTail_delim xs rest)]
          dsimp only
          rw [ihl xs rest hx.2 hfx.2]
    · intro kvs rest hwf hfuel
      cases kvs with
      | nil => simp [printMembersTail, parseMembers, skipWs]
      | cons k v kvs =>
          have hm : k.all wfChar = true ∧ jwfB v = true ∧ mwfB kvs = true := by
            have h1 := hwf
            simp only [mwfB, Bool.and_eq_true] at h1
            tauto
          have hfm : jfuel v ≤ f ∧ mfuel kvs ≤ f := by
            simp only [mfuel] at hfuel
            omega
          simp only [printMembersTail, List.cons_append, List.append_assoc]
          simp only [parseMembers]
          rw [skipWs_keep 44 _ (by omega)]
          dsimp only
          norm_num
          rw [show skipWs (32 :: 34 :: (escapeString k ++ (34 :: 58 :: 32 :: (printValue v ++
              (printMembersTail kvs ++ (125 :: rest)))))) =
            34 :: (escapeString k ++ (34 :: 58 :: 32 :: (printValue v ++
              (printMembersTail kvs ++ (125 :: rest))))) by
            unfold skipWs
            rw [if_pos (by omega)]
            exact skipWs_keep 34 _ (by omega)]
          dsimp only
          norm_num
          rw [parseStringBody_round k _ _ hm.1 (by
            have h1 := escapeString_length k
            omega)]
          dsimp only
          rw [skipWs_keep 58 _ (by omega)]
          dsimp only
          rw [parseValue_ws32]
          rw [ihv v (printMembersTail kvs ++ (125 :: rest)) hm.2.1 hfm.1
            (membersTail_delim kvs rest)]
          dsimp only
          rw [ihm kvs rest hm.2.2 hfm.2]

/-- `json.loads` inverts `json.dumps` on every well-formed value. -/
theorem json_loads_printValue (v : JVal) (h : jwfB v = true) :
    json_loads (printValue v) = Except.ok v := by
  unfold json_loads
  have hfe : jfuel v ≤ (printValue v).length + 1 := by
    have h1 := jfuel_le v
    omega
  have hp := (parse_print ((printValue v).length + 1)).1 v [] h hfe trivial
  rw [List.append_nil] at hp
  rw [hp]
  simp [skipWs]

/-- Looking up a freshly enqueued id returns the inserted row. -/
theorem get_job_enqueue (store : List Job) (id now pid : Nat) (key : String) (payload : JVal)
    (h : get_job store id = none) :
    get_job (enqueue_job store id now pid key payload).1 id =
      some { id := id, project_id := pid, task_key := key, status := "queued",
             payload := some (printValue payload), result := none,
             created_at := now, updated_at := now } := by
  unfold get_job enqueue_job
  unfold get_job at h
  rw [List.find?_append, h]
  simp

/-! ## C10 — payload round trip -/

/-- C10: serialization round trip — for every well-formed JSON value
`json.loads(json.dumps(v))` returns `v`, so the payload the worker later
parses from a freshly enqueued job equals the enqueued payload map; and a
job whose stored payload is NULL or the empty string yields the empty dict
to the task. -/
theorem C10_payload_roundtrip :
    (∀ v : JVal, jwfB v = true → json_loads (printValue v) = Except.ok v) ∧
    (∀ (store : List Job) (id now pid : Nat) (key : String) (kvs : JMembers),
      jwfB (JVal.jobj kvs) = true → get_job store id = none →
      ∃ j, get_job (enqueue_job store id now pid key (JVal.jobj kvs)).1 id = some j ∧
        loadPayload j.payload = Except.ok (JVal.jobj kvs)) ∧
    loadPayload none = Except.ok (JVal.jobj JMembers.nil) ∧
    loadPayload (some []) = Except.ok (JVal.jobj JMembers.nil) := by
  refine ⟨json_loads_printValue, ?_, rfl, rfl⟩
  intro store id now pid key kvs hwf hfresh
  refine ⟨_, get_job_enqueue store id now pid key (JVal.jobj kvs) hfresh, ?_⟩
  have hne : (printValue (JVal.jobj kvs)).isEmpty = false := by cases kvs <;> rfl
  unfold loadPayload
  dsimp only
  rw [if_neg (by simp [hne])]
  exact json_loads_printValue _ hwf

/-- Concrete payload map of the C10 witness. -/
def payloadC10 : JVal :=
  JVal.jobj (JMembers.cons (strLit "x") (JVal.jnum 1)
    (JMembers.cons (strLit "note") (JVal.jstr (strLit "a-b")) JMembers.nil))

/-- Witness instantiating the C10 statement on a concrete payload map. -/
theorem C10_payload_roundtrip_witness :
    jwfB payloadC10 = true ∧
    json_loads (printValue payloadC10) = Except.ok payloadC10 ∧
    (∃ j, get_job (enqueue_job [] 3 1 0 "t" payloadC10).1 3 = some j ∧
      loadPayload j.payload = Except.ok payloadC10) :=
  ⟨rfl, C10_payload_roundtrip.1 payloadC10 rfl,
   C10_payload_roundtrip.2.1 [] 3 1 0 "t"
     (JMembers.cons (strLit "x") (JVal.jnum 1)
       (JMembers.cons (strLit "note") (JVal.jstr (strLit "a-b")) JMembers.nil)) rfl rfl⟩
